import Mathlib

/-!
Verification of the monkey interpreter front end (lexer and Pratt parser).

The Go sources are shallowly embedded: `string` becomes `List Char` (the
inputs of interest are ASCII, where Go bytes and Lean characters agree),
the lexer's mutable cursor struct becomes a record threaded explicitly,
and loops whose termination depends on the data are given explicit fuel
(`Option` result, `none` = fuel exhausted).  Go functions keep their names.
-/

/- ===================== token/token.go ===================== -/

/-- token.TokenType.  In Go this is a string type with the constants below;
they are pairwise distinct strings, so an enumeration is faithful.  `ZEROVALUE`
stands for the zero value `""` of the string type (the `Type` field of a
freshly zero-initialised `token.Token`). -/
inductive TokenType where
  | ILLEGAL | EOF
  | IDENT | INT
  | ASSIGN | PLUS | MINUS | BANG | ASTERISK | SLASH
  | LT | GT
  | COMMA | SEMICOLON | LPAREN | RPAREN | LBRACE | RBRACE
  | FUNCTION | LET | TRUE | FALSE | IF | ELSE | RETURN
  | EQ | NOT_EQ
  | ZEROVALUE
deriving DecidableEq, Repr

/-- The string value of each TokenType constant (used by fmt `%s` when error
messages are built): e.g. `ASSIGN = "="`, `INT = "INT"`. -/
def TokenType.toChars : TokenType → List Char
  | .ILLEGAL => "ILLEGAL".toList
  | .EOF => "EOF".toList
  | .IDENT => "IDENT".toList
  | .INT => "INT".toList
  | .ASSIGN => "=".toList
  | .PLUS => "+".toList
  | .MINUS => "-".toList
  | .BANG => "!".toList
  | .ASTERISK => "*".toList
  | .SLASH => "/".toList
  | .LT => "<".toList
  | .GT => ">".toList
  | .COMMA => ",".toList
  | .SEMICOLON => ";".toList
  | .LPAREN => "(".toList
  | .RPAREN => ")".toList
  | .LBRACE => "\x7b".toList
  | .RBRACE => "\x7d".toList
  | .FUNCTION => "FUNCTION".toList
  | .LET => "LET".toList
  | .TRUE => "TRUE".toList
  | .FALSE => "FALSE".toList
  | .IF => "IF".toList
  | .ELSE => "ELSE".toList
  | .RETURN => "RETURN".toList
  | .EQ => "EQ".toList
  | .NOT_EQ => "NOT_EQ".toList
  | .ZEROVALUE => "".toList

/-- token.Token: a kind and the exact source substring. -/
structure Token where
  type : TokenType
  literal : List Char
deriving DecidableEq, Repr

/-- token.LookupIdent: the fixed keyword table, falling back to IDENT.
(The Go map lookup over these seven fixed keys is rendered as an if-chain.) -/
def LookupIdent (ident : List Char) : TokenType :=
  if ident = "fn".toList then .FUNCTION
  else if ident = "let".toList then .LET
  else if ident = "true".toList then .TRUE
  else if ident = "false".toList then .FALSE
  else if ident = "if".toList then .IF
  else if ident = "else".toList then .ELSE
  else if ident = "return".toList then .RETURN
  else .IDENT

/- ===================== lexer/lexer.go ===================== -/

/-- The NUL sentinel the lexer uses for past-end-of-input (`l.ch = 0`). -/
def nulChar : Char := Char.ofNat 0

/-- lexer.Lexer: the input plus three cursors. -/
structure Lexer where
  input : List Char
  position : Nat
  readPosition : Nat
  ch : Char
deriving DecidableEq, Repr

/-- Lexer.readChar: copy the next char (or the NUL sentinel) into `ch`,
then advance both cursor positions. -/
def readChar (l : Lexer) : Lexer :=
  { l with
    ch := if l.readPosition ≥ l.input.length then nulChar
          else l.input.getD l.readPosition nulChar
    position := l.readPosition
    readPosition := l.readPosition + 1 }

/-- Lexer.peekChar: look one char ahead without moving the cursors. -/
def peekChar (l : Lexer) : Char :=
  if l.readPosition ≥ l.input.length then nulChar
  else l.input.getD l.readPosition nulChar

/-- lexer.New: zero-initialised struct (Go zero byte = NUL) plus one readChar. -/
def Lexer.new (input : List Char) : Lexer :=
  readChar { input := input, position := 0, readPosition := 0, ch := nulChar }

/-- lexer.isLetter. -/
def isLetter (ch : Char) : Bool :=
  ('a' ≤ ch && ch ≤ 'z') || ('A' ≤ ch && ch ≤ 'Z') || ch = '_'

/-- lexer.isDigit. -/
def isDigit (ch : Char) : Bool :=
  '0' ≤ ch && ch ≤ '9'

/-- The loop condition of Lexer.skipWhitespace (space, tab, newline, CR). -/
def isWs (ch : Char) : Bool :=
  ch = ' ' || ch = '\t' || ch = '\n' || ch = '\r'

/-- The Go pattern `for p(l.ch) { l.readChar() }`, made structural with an
explicit iteration counter.  `advanceWhile` below supplies a counter that is
provably sufficient whenever `p` rejects the NUL sentinel, so the wrapper
satisfies the exact loop equation (theorem `advanceWhile_eq`). -/
def advanceGo (p : Char → Bool) : Nat → Lexer → Lexer
  | 0, l => l
  | fuel + 1, l => if p l.ch then advanceGo p fuel (readChar l) else l

/-- An upper bound on the number of iterations the `for p(l.ch)` loop can
make: the loop can run while the read cursor is inside the input, plus one
step once past the end (where `readChar` yields NUL). -/
def advFuel (p : Char → Bool) (l : Lexer) : Nat :=
  (l.input.length + 1 - l.readPosition) + (if p l.ch then 1 else 0)

/-- The loop `for p(l.ch) { l.readChar() }`. -/
def advanceWhile (p : Char → Bool) (l : Lexer) : Lexer :=
  advanceGo p (advFuel p l) l

/-- Lexer.skipWhitespace. -/
def skipWhitespace (l : Lexer) : Lexer :=
  advanceWhile isWs l

/-- Lexer.readIdentifier: advance while isLetter, return the spanned
substring `l.input[position:l.position]` together with the new state. -/
def readIdentifier (l : Lexer) : List Char × Lexer :=
  let l' := advanceWhile isLetter l
  ((l.input.drop l.position).take (l'.position - l.position), l')

/-- Lexer.readNumber: advance while isDigit, return the spanned substring. -/
def readNumber (l : Lexer) : List Char × Lexer :=
  let l' := advanceWhile isDigit l
  ((l.input.drop l.position).take (l'.position - l.position), l')

/-- lexer.newToken. -/
def newToken (tokenType : TokenType) (ch : Char) : Token :=
  { type := tokenType, literal := [ch] }

/-- The switch statement of Lexer.NextToken, applied to the state after
skipWhitespace.  The Go switch on concrete byte values is rendered as an
if-chain (the cases are disjoint).  The identifier and number branches
return early; all other branches perform the final `l.readChar()`.  The
brace characters are written by code point (123 = opening, 125 = closing
brace). -/
def nextTokenSwitch (l : Lexer) : Token × Lexer :=
  if l.ch = '=' then
    if peekChar l = '=' then
      let ch := l.ch
      let l1 := readChar l
      (⟨.EQ, [ch, l1.ch]⟩, readChar l1)
    else (newToken .ASSIGN l.ch, readChar l)
  else if l.ch = '+' then (newToken .PLUS l.ch, readChar l)
  else if l.ch = '-' then (newToken .MINUS l.ch, readChar l)
  else if l.ch = '!' then
    if peekChar l = '=' then
      let ch := l.ch
      let l1 := readChar l
      (⟨.NOT_EQ, [ch, l1.ch]⟩, readChar l1)
    else (newToken .BANG l.ch, readChar l)
  else if l.ch = '/' then (newToken .SLASH l.ch, readChar l)
  else if l.ch = '*' then (newToken .ASTERISK l.ch, readChar l)
  else if l.ch = '<' then (newToken .LT l.ch, readChar l)
  else if l.ch = '>' then (newToken .GT l.ch, readChar l)
  else if l.ch = ';' then (newToken .SEMICOLON l.ch, readChar l)
  else if l.ch = ',' then (newToken .COMMA l.ch, readChar l)
  else if l.ch = '(' then (newToken .LPAREN l.ch, readChar l)
  else if l.ch = ')' then (newToken .RPAREN l.ch, readChar l)
  else if l.ch = '\x7b' then (newToken .LBRACE l.ch, readChar l)
  else if l.ch = '\x7d' then (newToken .RBRACE l.ch, readChar l)
  else if l.ch = nulChar then (⟨.EOF, []⟩, readChar l)
  else if isLetter l.ch then
    let (lit, l1) := readIdentifier l
    (⟨LookupIdent lit, lit⟩, l1)
  else if isDigit l.ch then
    let (lit, l1) := readNumber l
    (⟨.INT, lit⟩, l1)
  else (newToken .ILLEGAL l.ch, readChar l)

/-- Lexer.NextToken: skip whitespace, then the switch on the current char. -/
def NextToken (l0 : Lexer) : Token × Lexer :=
  nextTokenSwitch (skipWhitespace l0)

/- ===================== ast/ast.go ===================== -/

/-- ast.Identifier (used both as an expression and as LetStatement.Name). -/
structure Identifier where
  token : Token
  value : List Char
deriving DecidableEq, Repr

/-- ast.Expression: the closed set of expression nodes the parser builds.
In Go, `ast.Expression` is an interface type and `nil` is one of its values
(a failed sub-parse returns a nil Expression, and unassigned fields stay
nil); `nilExpr` stands for that nil interface value. -/
inductive Expr where
  | nilExpr
  | IdentifierE (token : Token) (value : List Char)
  | IntegerLiteral (token : Token) (value : Int)
  | PrefixExpression (token : Token) (operator : List Char) (right : Expr)
  | InfixExpression (token : Token) (operator : List Char) (left : Expr) (right : Expr)
deriving DecidableEq, Repr

/-- ast.Statement: LetStatement, ReturnStatement, ExpressionStatement.
`LetStatement.Name` is always assigned before a non-nil LetStatement is
returned, so it is not optional; the `Value`/`ReturnValue`/`Expression`
interface fields can be left nil (`Expr.nilExpr`).  `nilLetStatement` is
the Go "typed nil": the nil `*ast.LetStatement` pointer wrapped in the
`ast.Statement` interface.  Such an interface value is NOT equal to nil in
Go (its type word is set), which is why ParseProgram's `stmt != nil` check
appends it to the program. -/
inductive Stmt where
  | nilLetStatement
  | LetStatement (token : Token) (name : Identifier) (value : Expr)
  | ReturnStatement (token : Token) (returnValue : Expr)
  | ExpressionStatement (token : Token) (expression : Expr)
deriving DecidableEq, Repr

/-- ast.Program. -/
structure Program where
  Statements : List Stmt
deriving DecidableEq, Repr

/- ===================== parser/parser.go ===================== -/

/-- Operator precedences (iota: LOWEST = 1 .. CALL = 7). -/
def LOWEST : Nat := 1
def EQUALS : Nat := 2
def LESSGREATER : Nat := 3
def SUM : Nat := 4
def PRODUCT : Nat := 5
def PREFIX : Nat := 6
def CALL : Nat := 7

/-- The `precedences` map: token type to precedence (absent for others). -/
def precedences : TokenType → Option Nat
  | .EQ => some EQUALS
  | .NOT_EQ => some EQUALS
  | .LT => some LESSGREATER
  | .GT => some LESSGREATER
  | .PLUS => some SUM
  | .MINUS => some SUM
  | .SLASH => some PRODUCT
  | .ASTERISK => some PRODUCT
  | _ => none

/-- parser.Parser: lexer, error list, and the two-token lookahead.
A Go zero-value token has `Type = ""` (ZEROVALUE) and an empty literal. -/
structure Parser where
  l : Lexer
  errors : List (List Char)
  curToken : Token
  peekToken : Token
deriving DecidableEq, Repr

/-- Parser.nextToken: shift peek into current, pull a fresh peek. -/
def nextToken (p : Parser) : Parser :=
  let r := NextToken p.l
  { p with l := r.2, curToken := p.peekToken, peekToken := r.1 }

/-- parser.New: zero-valued token slots, empty error list, two advances.
The prefix/infix registration maps are fixed at construction; they are
rendered as the dispatch tables `registeredPre`/`registeredIn` below. -/
def Parser.new (l : Lexer) : Parser :=
  nextToken (nextToken
    { l := l, errors := [],
      curToken := ⟨.ZEROVALUE, []⟩, peekToken := ⟨.ZEROVALUE, []⟩ })

/-- Parser.curTokenIs. -/
def curTokenIs (p : Parser) (t : TokenType) : Bool :=
  p.curToken.type = t

/-- Parser.peekTokenIs. -/
def peekTokenIs (p : Parser) (t : TokenType) : Bool :=
  p.peekToken.type = t

/-- Parser.peekError: append "expected next token to be X, got Y instead". -/
def peekError (p : Parser) (t : TokenType) : Parser :=
  { p with errors := p.errors ++
      ["expected next token to be ".toList ++ t.toChars ++
       ", got ".toList ++ p.peekToken.type.toChars ++ " instead".toList] }

/-- Parser.expectPeek: advance on a match, otherwise record a peekError. -/
def expectPeek (p : Parser) (t : TokenType) : Bool × Parser :=
  if peekTokenIs p t then (true, nextToken p)
  else (false, peekError p t)

/-- Parser.noPrefixParseFnError: append "no prefix parse function for X found". -/
def noPreFnError (p : Parser) (t : TokenType) : Parser :=
  { p with errors := p.errors ++
      ["no prefix parse function for ".toList ++ t.toChars ++ " found".toList] }

/-- Parser.peekPrecedence: map lookup defaulting to LOWEST. -/
def peekPrecedence (p : Parser) : Nat :=
  (precedences p.peekToken.type).getD LOWEST

/-- Parser.curPrecedence: map lookup defaulting to LOWEST. -/
def curPrecedence (p : Parser) : Nat :=
  (precedences p.curToken.type).getD LOWEST

/-- Which token types have a prefix parse function registered in parser.New
(parseIdentifier for IDENT, parseIntegerLiteral for INT,
parsePrefixExpression for BANG and MINUS). -/
def registeredPre : TokenType → Bool
  | .IDENT => true
  | .INT => true
  | .BANG => true
  | .MINUS => true
  | _ => false

/-- Which token types have an infix parse function registered in parser.New
(parseInfixExpression for all eight binary operators). -/
def registeredIn : TokenType → Bool
  | .PLUS => true
  | .MINUS => true
  | .SLASH => true
  | .ASTERISK => true
  | .EQ => true
  | .NOT_EQ => true
  | .LT => true
  | .GT => true
  | _ => false

/-- Parser.parseIdentifier. -/
def parseIdentifier (p : Parser) : Expr × Parser :=
  (.IdentifierE p.curToken p.curToken.literal, p)

/-- The int64 upper bound: strconv.ParseInt with bitSize 64. -/
def maxInt64 : Nat := 2 ^ 63 - 1

/-- The numeric value of a decimal digit character. -/
def digitVal (c : Char) : Nat := c.toNat - '0'.toNat

/-- strconv.ParseInt(s, 0, 64) restricted to the literals the lexer can
produce for INT tokens: nonempty runs of the characters '0'..'9' (readNumber
admits no sign, no point, no letters, so the "0b"/"0o"/"0x" prefix cases and
the underscore cases of base 0 cannot arise).  With base 0, a leading '0'
switches the remaining digits to octal (Go: `s = s[1:]; base = 8`); otherwise
the digits are decimal.  The result is an error (`none`) when a digit is
invalid for the detected base (ErrSyntax) or the value exceeds the positive
int64 range (ErrRange); Go reports both through a non-nil err, which is all
parseIntegerLiteral inspects. -/
def goParseIntBase0 (s : List Char) : Option Int :=
  match s with
  | [] => none
  | c :: rest =>
    let br : Nat × List Char := if c = '0' then (8, rest) else (10, c :: rest)
    if br.2.all (fun d => digitVal d < br.1) then
      let n := br.2.foldl (fun a d => br.1 * a + digitVal d) 0
      if n ≤ maxInt64 then some (Int.ofNat n) else none
    else none

/-- Parser.parseIntegerLiteral: convert the literal via ParseInt(lit, 0, 64);
on error, append "could not parse %q as integer" and return a nil node. -/
def parseIntegerLiteral (p : Parser) : Expr × Parser :=
  match goParseIntBase0 p.curToken.literal with
  | some value => (.IntegerLiteral p.curToken value, p)
  | none =>
    (.nilExpr, { p with errors := p.errors ++
        ["could not parse \"".toList ++ p.curToken.literal ++
         "\" as integer".toList] })

mutual

/-- Parser.parseExpression: look up the prefix parse function registered
for the current token type (the match below is the map lookup: IDENT maps
to parseIdentifier, INT to parseIntegerLiteral, BANG and MINUS to
parsePrefixExpression, anything else is absent and records the
noPrefixParseFnError), then run the infix loop.  The unbounded Go
recursion is indexed by fuel; `none` means the fuel ran out. -/
def parseExpression : Nat → Nat → Parser → Option (Expr × Parser)
  | 0, _, _ => none
  | Nat.succ fuel, precedence, p =>
    match p.curToken.type with
    | .IDENT =>
      let r := parseIdentifier p
      parseExpressionLoop fuel precedence r.1 r.2
    | .INT =>
      let r := parseIntegerLiteral p
      parseExpressionLoop fuel precedence r.1 r.2
    | .BANG =>
      match parsePrefixExpression fuel p with
      | none => none
      | some (leftExp, p1) => parseExpressionLoop fuel precedence leftExp p1
    | .MINUS =>
      match parsePrefixExpression fuel p with
      | none => none
      | some (leftExp, p1) => parseExpressionLoop fuel precedence leftExp p1
    | t => some (.nilExpr, noPreFnError p t)

/-- The `for !p.peekTokenIs(SEMICOLON) && precedence < p.peekPrecedence()`
loop inside Parser.parseExpression.  All eight registered infix parse
functions are parseInfixExpression, so the infix-map lookup is the
`registeredIn` test followed by that single function. -/
def parseExpressionLoop : Nat → Nat → Expr → Parser → Option (Expr × Parser)
  | 0, _, _, _ => none
  | Nat.succ fuel, precedence, leftExp, p =>
    if ¬ peekTokenIs p .SEMICOLON ∧ precedence < peekPrecedence p then
      if registeredIn p.peekToken.type then
        match parseInfixExpression fuel leftExp (nextToken p) with
        | none => none
        | some (leftExp1, p1) => parseExpressionLoop fuel precedence leftExp1 p1
      else some (leftExp, p)
    else some (leftExp, p)

/-- Parser.parsePrefixExpression: capture operator, advance, parse the
operand at PREFIX precedence (Right may come back nil). -/
def parsePrefixExpression : Nat → Parser → Option (Expr × Parser)
  | 0, _ => none
  | Nat.succ fuel, p =>
    let tok := p.curToken
    let op := p.curToken.literal
    match parseExpression fuel PREFIX (nextToken p) with
    | none => none
    | some (right, p1) => some (.PrefixExpression tok op right, p1)

/-- Parser.parseInfixExpression: capture left operand and operator, record
the operator's own precedence, advance, parse the right operand at that
precedence. -/
def parseInfixExpression : Nat → Expr → Parser → Option (Expr × Parser)
  | 0, _, _ => none
  | Nat.succ fuel, left, p =>
    let tok := p.curToken
    let op := p.curToken.literal
    let precedence := curPrecedence p
    match parseExpression fuel precedence (nextToken p) with
    | none => none
    | some (right, p1) => some (.InfixExpression tok op left right, p1)

end

/-- The `for !p.curTokenIs(token.SEMICOLON) { p.nextToken() }` loop shared
by Parser.parseLetStatement and Parser.parseReturnStatement (the TODO
"skipping the expressions until we encounter a semicolon"). -/
def skipToSemicolon : Nat → Parser → Option Parser
  | 0, _ => none
  | Nat.succ fuel, p =>
    if ¬ curTokenIs p .SEMICOLON then skipToSemicolon fuel (nextToken p)
    else some p

/-- Parser.parseLetStatement: require IDENT, require ASSIGN, then skip to
the `;` (the Value field is never assigned, it stays nil). -/
def parseLetStatement (fuel : Nat) (p : Parser) : Option (Option Stmt × Parser) :=
  let tok := p.curToken
  match expectPeek p .IDENT with
  | (false, p1) => some (none, p1)
  | (true, p1) =>
    let name : Identifier := ⟨p1.curToken, p1.curToken.literal⟩
    match expectPeek p1 .ASSIGN with
    | (false, p2) => some (none, p2)
    | (true, p2) =>
      match skipToSemicolon fuel p2 with
      | none => none
      | some p3 => some (some (.LetStatement tok name .nilExpr), p3)

/-- Parser.parseReturnStatement: advance past `return`, then skip to the
`;` (the ReturnValue field is never assigned, it stays nil). -/
def parseReturnStatement (fuel : Nat) (p : Parser) : Option (Option Stmt × Parser) :=
  let tok := p.curToken
  match skipToSemicolon fuel (nextToken p) with
  | none => none
  | some p1 => some (some (.ReturnStatement tok .nilExpr), p1)

/-- Parser.parseExpressionStatement: parse one expression at LOWEST, then
optionally consume a trailing `;`. -/
def parseExpressionStatement (fuel : Nat) (p : Parser) : Option (Option Stmt × Parser) :=
  let tok := p.curToken
  match parseExpression fuel LOWEST p with
  | none => none
  | some (expression, p1) =>
    let p2 := if peekTokenIs p1 .SEMICOLON then nextToken p1 else p1
    some (some (.ExpressionStatement tok expression), p2)

/-- Parser.parseStatement: dispatch on the current token's type.  The Go
function's return type is the interface ast.Statement; the inner `Option
Stmt` is that interface value, with `none` the nil interface.  In the LET
case, `return p.parseLetStatement()` converts the `*ast.LetStatement`
pointer to an interface value: a nil pointer becomes the typed-nil
interface value `Stmt.nilLetStatement`, which is not the nil interface.
No branch ever produces the nil interface (`none`): the RETURN and default
branches always return freshly allocated nodes. -/
def parseStatement (fuel : Nat) (p : Parser) : Option (Option Stmt × Parser) :=
  match p.curToken.type with
  | .LET =>
    match parseLetStatement fuel p with
    | none => none
    | some (some s, p1) => some (some s, p1)
    | some (none, p1) => some (some .nilLetStatement, p1)
  | .RETURN => parseReturnStatement fuel p
  | _ => parseExpressionStatement fuel p

/-- The statement loop of Parser.ParseProgram: while the current token is
not EOF, parse a statement, append it when the interface value is not nil,
advance.  The `none` branch of the inner match is Go's `stmt != nil` test
on the interface value; since parseStatement never returns the nil
interface (a failed let yields the non-nil typed-nil value), the guard
always passes and every parsed statement is appended. -/
def parseProgramLoop : Nat → Parser → List Stmt → Option (Program × Parser)
  | 0, _, _ => none
  | Nat.succ fuel, p, acc =>
    if ¬ curTokenIs p .EOF then
      match parseStatement fuel p with
      | none => none
      | some (stmt, p1) =>
        let acc1 := match stmt with
          | some s => acc ++ [s]
          | none => acc
        parseProgramLoop fuel (nextToken p1) acc1
    else some (⟨acc⟩, p)

/-- Parser.ParseProgram. -/
def ParseProgram (fuel : Nat) (p : Parser) : Option (Program × Parser) :=
  parseProgramLoop fuel p []

/-- The whole pipeline on a source string: lexer.New, parser.New,
ParseProgram.  Returns the program together with the final parser state
(which carries the error list). -/
def parseInput (fuel : Nat) (s : List Char) : Option (Program × Parser) :=
  ParseProgram fuel (Parser.new (Lexer.new s))

/-- The statement list of a parse, when it completes within the fuel. -/
def parsedStatements (fuel : Nat) (s : List Char) : Option (List Stmt) :=
  (parseInput fuel s).map fun r => r.1.Statements

/-- The recorded error list of a parse, when it completes within the fuel. -/
def parsedErrors (fuel : Nat) (s : List Char) : Option (List (List Char)) :=
  (parseInput fuel s).map fun r => r.2.errors

/- ========== auxiliary definitions used by the verification ========== -/

/-- Iterate the lexer: the state after `k` calls to NextToken. -/
def lexSteps : Nat → Lexer → Lexer
  | 0, l => l
  | k + 1, l => lexSteps k (NextToken l).2

/-- The token returned by the `(k+1)`-st call to NextToken on a fresh lexer
for `inp` (that is, after `k` earlier calls). -/
def tokenAt (inp : List Char) (k : Nat) : Token :=
  (NextToken (lexSteps k (Lexer.new inp))).1

/-- Cursor coherence, satisfied by every lexer state reachable from
Lexer.new: the read cursor is one past the current position, and once the
position has passed the end of the input the current char is the NUL
sentinel. -/
abbrev CursorInv (l : Lexer) : Prop :=
  l.readPosition = l.position + 1 ∧ (l.position ≥ l.input.length → l.ch = nulChar)

/-- The input contains no NUL byte.  (Go strings may contain NUL bytes,
which collide with the lexer's use of NUL as end-of-input sentinel.) -/
abbrev NulFree (l : Lexer) : Prop := nulChar ∉ l.input

/-- A NUL current char only arises once the read cursor has passed the end
of the input (true of reachable states over NUL-free inputs). -/
abbrev EofStable (l : Lexer) : Prop :=
  l.ch = nulChar → l.readPosition ≥ l.input.length

/-- A parser state from which the let/return skip-to-semicolon loop can
never exit: neither lookahead slot holds a `;`, and the lexer sits past the
end of its input, so it yields only EOF tokens from now on. -/
abbrev StuckNoSemicolon (p : Parser) : Prop :=
  p.curToken.type ≠ .SEMICOLON ∧ p.peekToken.type ≠ .SEMICOLON ∧
  p.l.ch = nulChar ∧ p.l.readPosition ≥ p.l.input.length

/-- The lexer sits past the end of its input: the current char is the NUL
sentinel and the read cursor is at or beyond the input length.  From such a
state NextToken returns the EOF token forever. -/
abbrev AtEnd (l : Lexer) : Prop :=
  l.ch = nulChar ∧ l.readPosition ≥ l.input.length

/-- Spec-side checker, following the claim wording: the statement is a let
binding of identifier `name` to an IntegerLiteral with value `v`. -/
def specLetBindsInt (name : List Char) (v : Int) : Stmt → Bool
  | .LetStatement _ n (.IntegerLiteral _ w) => n.value = name && w = v
  | _ => false

/-- Spec-side checker, following the claim wording: the statement is a
well-formed let binding of identifier `name` (a non-nil LetStatement whose
Name field holds `name`; the typed-nil LetStatement is no valid binding,
its Name was never assigned). -/
def isLetBindingOf (name : List Char) : Stmt → Bool
  | .LetStatement _ n _ => n.value = name
  | _ => false

/-- Spec-side, following the claim wording: the exact decimal
interpretation of a run of digit characters. -/
def decimalValue (s : List Char) : Nat :=
  s.foldl (fun a d => 10 * a + digitVal d) 0

/-- Spec-side, for the amended claim: the octal interpretation of a run of
digit characters. -/
def octalValue (s : List Char) : Nat :=
  s.foldl (fun a d => 8 * a + digitVal d) 0

/- ============== loop equations for the lexer's scans ============== -/

theorem readChar_input (l : Lexer) : (readChar l).input = l.input := rfl

theorem readChar_position (l : Lexer) : (readChar l).position = l.readPosition := rfl

theorem readChar_readPosition (l : Lexer) :
    (readChar l).readPosition = l.readPosition + 1 := rfl

theorem readChar_ch_eq_peekChar (l : Lexer) : (readChar l).ch = peekChar l := rfl

theorem advFuel_readChar_lt (p : Char → Bool) (hp : p nulChar = false) (l : Lexer)
    (h : p l.ch = true) : advFuel p (readChar l) < advFuel p l := by
  unfold advFuel readChar
  simp only [h, if_true]
  by_cases hrp : l.readPosition ≥ l.input.length
  · simp only [hrp, if_true, hp]
    norm_num
    omega
  · simp only [hrp, if_false]
    have hb : (if p (l.input.getD l.readPosition nulChar) = true then 1 else 0) ≤ 1 := by
      split <;> omega
    omega

theorem advanceGo_succ (p : Char → Bool) (hp : p nulChar = false) :
    ∀ (f : Nat) (l : Lexer), advFuel p l ≤ f →
      advanceGo p (f + 1) l = advanceGo p f l := by
  intro f
  induction f with
  | zero =>
    intro l hf
    have hch : p l.ch = false := by
      by_contra hc
      have : p l.ch = true := by
        cases hcc : p l.ch
        · exact absurd hcc hc
        · rfl
      unfold advFuel at hf
      rw [this] at hf
      simp at hf
    simp [advanceGo, hch]
  | succ f ih =>
    intro l hf
    show (if p l.ch = true then advanceGo p (f + 1) (readChar l) else l)
       = (if p l.ch = true then advanceGo p f (readChar l) else l)
    by_cases hch : p l.ch = true
    · rw [if_pos hch, if_pos hch]
      exact ih (readChar l)
        (Nat.le_of_lt_succ (Nat.lt_of_lt_of_le (advFuel_readChar_lt p hp l hch) hf))
    · rw [if_neg hch, if_neg hch]

theorem advanceGo_of_le (p : Char → Bool) (hp : p nulChar = false) :
    ∀ (k : Nat) (l : Lexer), advanceGo p (advFuel p l + k) l = advanceWhile p l := by
  intro k
  induction k with
  | zero => intro l; rfl
  | succ k ih =>
    intro l
    have h1 : advanceGo p (advFuel p l + k + 1) l = advanceGo p (advFuel p l + k) l :=
      advanceGo_succ p hp _ l (Nat.le_add_right _ _)
    calc advanceGo p (advFuel p l + (k + 1)) l
        = advanceGo p (advFuel p l + k + 1) l := by rw [Nat.add_assoc]
      _ = advanceGo p (advFuel p l + k) l := h1
      _ = advanceWhile p l := ih l

theorem advanceGo_eq (p : Char → Bool) (hp : p nulChar = false) (f : Nat) (l : Lexer)
    (hf : advFuel p l ≤ f) : advanceGo p f l = advanceWhile p l := by
  have : advFuel p l + (f - advFuel p l) = f := by omega
  rw [← this]
  exact advanceGo_of_le p hp _ l

/-- The Go loop equation: `for p(l.ch) { l.readChar() }` unfolds one step at
a time, provided `p` rejects the NUL sentinel (true for whitespace, letters
and digits). -/
theorem advanceWhile_eq (p : Char → Bool) (hp : p nulChar = false) (l : Lexer) :
    advanceWhile p l = if p l.ch = true then advanceWhile p (readChar l) else l := by
  by_cases hch : p l.ch = true
  · rw [if_pos hch]
    have h1 : advFuel p l = (l.input.length + 1 - l.readPosition) + 1 := by
      unfold advFuel; rw [hch]; simp
    show advanceGo p (advFuel p l) l = advanceWhile p (readChar l)
    rw [h1]
    show (if p l.ch = true then
            advanceGo p (l.input.length + 1 - l.readPosition) (readChar l)
          else l) = advanceWhile p (readChar l)
    rw [if_pos hch]
    apply advanceGo_eq p hp
    have := advFuel_readChar_lt p hp l hch
    omega
  · rw [if_neg hch]
    cases hf : advFuel p l with
    | zero => show advanceGo p (advFuel p l) l = l; rw [hf]; rfl
    | succ m =>
      show advanceGo p (advFuel p l) l = l
      rw [hf]
      show (if p l.ch = true then advanceGo p m (readChar l) else l) = l
      rw [if_neg hch]

theorem advanceWhile_of_not (p : Char → Bool) (hp : p nulChar = false) (l : Lexer)
    (h : ¬ p l.ch = true) : advanceWhile p l = l := by
  rw [advanceWhile_eq p hp, if_neg h]

/-- Any property preserved by `readChar` is preserved by the scan loops. -/
theorem advanceGo_pres (p : Char → Bool) (P : Lexer → Prop)
    (hP : ∀ l, P l → P (readChar l)) :
    ∀ (f : Nat) (l : Lexer), P l → P (advanceGo p f l) := by
  intro f
  induction f with
  | zero => intro l h; exact h
  | succ f ih =>
    intro l h
    show P (if p l.ch = true then advanceGo p f (readChar l) else l)
    by_cases hch : p l.ch = true
    · rw [if_pos hch]; exact ih (readChar l) (hP l h)
    · rw [if_neg hch]; exact h

theorem advanceWhile_pres (p : Char → Bool) (P : Lexer → Prop)
    (hP : ∀ l, P l → P (readChar l)) (l : Lexer) (h : P l) :
    P (advanceWhile p l) :=
  advanceGo_pres p P hP _ l h

theorem isWs_nul : isWs nulChar = false := by decide

theorem isLetter_nul : isLetter nulChar = false := by decide

theorem isDigit_nul : isDigit nulChar = false := by decide


/- ============== general lemmas about NextToken ============== -/

theorem skipWhitespace_of_not (l : Lexer) (h : isWs l.ch = false) :
    skipWhitespace l = l :=
  advanceWhile_of_not isWs isWs_nul l (by rw [h]; exact Bool.false_ne_true)

theorem skipWhitespace_pres (P : Lexer → Prop) (hP : ∀ l, P l → P (readChar l))
    (l : Lexer) (h : P l) : P (skipWhitespace l) :=
  advanceWhile_pres isWs P hP l h



/-- Complete enumeration of the branches of the NextToken switch: for every
lexer state exactly one case of the Go switch fires, with the stated result.
Later lemmas about NextToken do their case analysis through this lemma. -/
theorem nextTokenSwitch_cases (l : Lexer) :
    (l.ch = '=' ∧ peekChar l = '=' ∧ nextTokenSwitch l =
      (⟨.EQ, [l.ch, (readChar l).ch]⟩, readChar (readChar l)))
  ∨ (l.ch = '=' ∧ ¬ peekChar l = '=' ∧ nextTokenSwitch l =
      (newToken .ASSIGN l.ch, readChar l))
  ∨ (l.ch = '!' ∧ peekChar l = '=' ∧ nextTokenSwitch l =
      (⟨.NOT_EQ, [l.ch, (readChar l).ch]⟩, readChar (readChar l)))
  ∨ (l.ch = '!' ∧ ¬ peekChar l = '=' ∧ nextTokenSwitch l =
      (newToken .BANG l.ch, readChar l))
  ∨ (l.ch = '+' ∧ nextTokenSwitch l = (newToken .PLUS l.ch, readChar l))
  ∨ (l.ch = '-' ∧ nextTokenSwitch l = (newToken .MINUS l.ch, readChar l))
  ∨ (l.ch = '/' ∧ nextTokenSwitch l = (newToken .SLASH l.ch, readChar l))
  ∨ (l.ch = '*' ∧ nextTokenSwitch l = (newToken .ASTERISK l.ch, readChar l))
  ∨ (l.ch = '<' ∧ nextTokenSwitch l = (newToken .LT l.ch, readChar l))
  ∨ (l.ch = '>' ∧ nextTokenSwitch l = (newToken .GT l.ch, readChar l))
  ∨ (l.ch = ';' ∧ nextTokenSwitch l = (newToken .SEMICOLON l.ch, readChar l))
  ∨ (l.ch = ',' ∧ nextTokenSwitch l = (newToken .COMMA l.ch, readChar l))
  ∨ (l.ch = '(' ∧ nextTokenSwitch l = (newToken .LPAREN l.ch, readChar l))
  ∨ (l.ch = ')' ∧ nextTokenSwitch l = (newToken .RPAREN l.ch, readChar l))
  ∨ (l.ch = '\x7b' ∧ nextTokenSwitch l = (newToken .LBRACE l.ch, readChar l))
  ∨ (l.ch = '\x7d' ∧ nextTokenSwitch l = (newToken .RBRACE l.ch, readChar l))
  ∨ (l.ch = nulChar ∧ nextTokenSwitch l = (⟨.EOF, []⟩, readChar l))
  ∨ (isLetter l.ch = true ∧ nextTokenSwitch l =
      (⟨LookupIdent (readIdentifier l).1, (readIdentifier l).1⟩, (readIdentifier l).2))
  ∨ (isDigit l.ch = true ∧ nextTokenSwitch l =
      (⟨.INT, (readNumber l).1⟩, (readNumber l).2))
  ∨ (¬ l.ch = '=' ∧ ¬ l.ch = '!' ∧
      nextTokenSwitch l = (newToken .ILLEGAL l.ch, readChar l)) := by
  by_cases c1 : l.ch = '='
  · by_cases pc1 : peekChar l = '='
    · exact Or.inl ⟨c1, pc1, by simp [nextTokenSwitch, c1, pc1]⟩
    · exact Or.inr (Or.inl ⟨c1, pc1, by simp [nextTokenSwitch, c1, pc1]⟩)
  ·
    by_cases c2 : l.ch = '+'
    · exact Or.inr (Or.inr (Or.inr (Or.inr (Or.inl ⟨c2, by simp [nextTokenSwitch, c1, c2]⟩))))
    ·
      by_cases c3 : l.ch = '-'
      · exact Or.inr (Or.inr (Or.inr (Or.inr (Or.inr (Or.inl ⟨c3, by simp [nextTokenSwitch, c1, c2, c3]⟩)))))
      ·
        by_cases c4 : l.ch = '!'
        · by_cases pc4 : peekChar l = '='
          · exact Or.inr (Or.inr (Or.inl ⟨c4, pc4, by simp [nextTokenSwitch, c1, c2, c3, c4, pc4]⟩))
          · exact Or.inr (Or.inr (Or.inr (Or.inl ⟨c4, pc4, by simp [nextTokenSwitch, c1, c2, c3, c4, pc4]⟩)))
        ·
          by_cases c5 : l.ch = '/'
          · exact Or.inr (Or.inr (Or.inr (Or.inr (Or.inr (Or.inr (Or.inl ⟨c5, by simp [nextTokenSwitch, c1, c2, c3, c4, c5]⟩))))))
          ·
            by_cases c6 : l.ch = '*'
            · exact Or.inr (Or.inr (Or.inr (Or.inr (Or.inr (Or.inr (Or.inr (Or.inl ⟨c6, by simp [nextTokenSwitch, c1, c2, c3, c4, c5, c6]⟩)))))))
            ·
              by_cases c7 : l.ch = '<'
              · exact Or.inr (Or.inr (Or.inr (Or.inr (Or.inr (Or.inr (Or.inr (Or.inr (Or.inl ⟨c7, by simp [nextTokenSwitch, c1, c2, c3, c4, c5, c6, c7]⟩))))))))
              ·
                by_cases c8 : l.ch = '>'
                · exact Or.inr (Or.inr (Or.inr (Or.inr (Or.inr (Or.inr (Or.inr (Or.inr (Or.inr (Or.inl ⟨c8, by simp [nextTokenSwitch, c1, c2, c3, c4, c5, c6, c7, c8]⟩)))))))))
                ·
                  by_cases c9 : l.ch = ';'
                  · exact Or.inr (Or.inr (Or.inr (Or.inr (Or.inr (Or.inr (Or.inr (Or.inr (Or.inr (Or.inr (Or.inl ⟨c9, by simp [nextTokenSwitch, c1, c2, c3, c4, c5, c6, c7, c8, c9]⟩))))))))))
                  ·
                    by_cases c10 : l.ch = ','
                    · exact Or.inr (Or.inr (Or.inr (Or.inr (Or.inr (Or.inr (Or.inr (Or.inr (Or.inr (Or.inr (Or.inr (Or.inl ⟨c10, by simp [nextTokenSwitch, c1, c2, c3, c4, c5, c6, c7, c8, c9, c10]⟩)))))))))))
                    ·
                      by_cases c11 : l.ch = '('
                      · exact Or.inr (Or.inr (Or.inr (Or.inr (Or.inr (Or.inr (Or.inr (Or.inr (Or.inr (Or.inr (Or.inr (Or.inr (Or.inl ⟨c11, by simp [nextTokenSwitch, c1, c2, c3, c4, c5, c6, c7, c8, c9, c10, c11]⟩))))))))))))
                      ·
                        by_cases c12 : l.ch = ')'
                        · exact Or.inr (Or.inr (Or.inr (Or.inr (Or.inr (Or.inr (Or.inr (Or.inr (Or.inr (Or.inr (Or.inr (Or.inr (Or.inr (Or.inl ⟨c12, by simp [nextTokenSwitch, c1, c2, c3, c4, c5, c6, c7, c8, c9, c10, c11, c12]⟩)))))))))))))
                        ·
                          by_cases c13 : l.ch = '\x7b'
                          · exact Or.inr (Or.inr (Or.inr (Or.inr (Or.inr (Or.inr (Or.inr (Or.inr (Or.inr (Or.inr (Or.inr (Or.inr (Or.inr (Or.inr (Or.inl ⟨c13, by simp [nextTokenSwitch, c1, c2, c3, c4, c5, c6, c7, c8, c9, c10, c11, c12, c13]⟩))))))))))))))
                          ·
                            by_cases c14 : l.ch = '\x7d'
                            · exact Or.inr (Or.inr (Or.inr (Or.inr (Or.inr (Or.inr (Or.inr (Or.inr (Or.inr (Or.inr (Or.inr (Or.inr (Or.inr (Or.inr (Or.inr (Or.inl ⟨c14, by simp [nextTokenSwitch, c1, c2, c3, c4, c5, c6, c7, c8, c9, c10, c11, c12, c13, c14]⟩)))))))))))))))
                            ·
                              by_cases c15 : l.ch = nulChar
                              · exact Or.inr (Or.inr (Or.inr (Or.inr (Or.inr (Or.inr (Or.inr (Or.inr (Or.inr (Or.inr (Or.inr (Or.inr (Or.inr (Or.inr (Or.inr (Or.inr (Or.inl ⟨c15, by simp [nextTokenSwitch, nulChar, c1, c2, c3, c4, c5, c6, c7, c8, c9, c10, c11, c12, c13, c14, c15]⟩))))))))))))))))
                              ·
                                by_cases c16 : isLetter l.ch = true
                                · exact Or.inr (Or.inr (Or.inr (Or.inr (Or.inr (Or.inr (Or.inr (Or.inr (Or.inr (Or.inr (Or.inr (Or.inr (Or.inr (Or.inr (Or.inr (Or.inr (Or.inr (Or.inl ⟨c16, by simp [nextTokenSwitch, readIdentifier, c1, c2, c3, c4, c5, c6, c7, c8, c9, c10, c11, c12, c13, c14, c15, c16]⟩)))))))))))))))))
                                ·
                                  by_cases c17 : isDigit l.ch = true
                                  · exact Or.inr (Or.inr (Or.inr (Or.inr (Or.inr (Or.inr (Or.inr (Or.inr (Or.inr (Or.inr (Or.inr (Or.inr (Or.inr (Or.inr (Or.inr (Or.inr (Or.inr (Or.inr (Or.inl ⟨c17, by simp [nextTokenSwitch, readNumber, c1, c2, c3, c4, c5, c6, c7, c8, c9, c10, c11, c12, c13, c14, c15, c16, c17]⟩))))))))))))))))))
                                  ·
                                    exact Or.inr (Or.inr (Or.inr (Or.inr (Or.inr (Or.inr (Or.inr (Or.inr (Or.inr (Or.inr (Or.inr (Or.inr (Or.inr (Or.inr (Or.inr (Or.inr (Or.inr (Or.inr (Or.inr (⟨c1, c4, by simp [nextTokenSwitch, c1, c2, c3, c4, c5, c6, c7, c8, c9, c10, c11, c12, c13, c14, c15, c16, c17]⟩)))))))))))))))))))

theorem NextToken_as_switch (l : Lexer) :
    NextToken l = nextTokenSwitch (skipWhitespace l) := rfl

/-- Any property preserved by readChar is preserved by a full NextToken
call (every branch only applies readChar, possibly through a scan loop). -/
theorem nextToken_pres (P : Lexer → Prop) (hP : ∀ l, P l → P (readChar l))
    (l : Lexer) (h : P l) : P (NextToken l).2 := by
  have hs : P (skipWhitespace l) := skipWhitespace_pres P hP l h
  have hb : NextToken l = nextTokenSwitch (skipWhitespace l) := rfl
  rcases nextTokenSwitch_cases (skipWhitespace l) with
      ⟨hc, hp, he⟩ |
      ⟨hc, hp, he⟩ |
      ⟨hc, hp, he⟩ |
      ⟨hc, hp, he⟩ |
      ⟨hc, he⟩ |
      ⟨hc, he⟩ |
      ⟨hc, he⟩ |
      ⟨hc, he⟩ |
      ⟨hc, he⟩ |
      ⟨hc, he⟩ |
      ⟨hc, he⟩ |
      ⟨hc, he⟩ |
      ⟨hc, he⟩ |
      ⟨hc, he⟩ |
      ⟨hc, he⟩ |
      ⟨hc, he⟩ |
      ⟨hc, he⟩ |
      ⟨hc, he⟩ |
      ⟨hc, he⟩ |
      hx
  · rw [hb, he]
    exact hP _ (hP _ hs)
  · rw [hb, he]
    exact hP _ hs
  · rw [hb, he]
    exact hP _ (hP _ hs)
  · rw [hb, he]
    exact hP _ hs
  · rw [hb, he]
    exact hP _ hs
  · rw [hb, he]
    exact hP _ hs
  · rw [hb, he]
    exact hP _ hs
  · rw [hb, he]
    exact hP _ hs
  · rw [hb, he]
    exact hP _ hs
  · rw [hb, he]
    exact hP _ hs
  · rw [hb, he]
    exact hP _ hs
  · rw [hb, he]
    exact hP _ hs
  · rw [hb, he]
    exact hP _ hs
  · rw [hb, he]
    exact hP _ hs
  · rw [hb, he]
    exact hP _ hs
  · rw [hb, he]
    exact hP _ hs
  · rw [hb, he]
    exact hP _ hs
  · rw [hb, he]
    show P (advanceWhile isLetter (skipWhitespace l))
    exact advanceWhile_pres isLetter P hP _ hs
  · rw [hb, he]
    show P (advanceWhile isDigit (skipWhitespace l))
    exact advanceWhile_pres isDigit P hP _ hs
  · rw [hb, hx.2.2]
    exact hP _ hs

/-- readChar re-establishes cursor coherence from any state. -/
theorem readChar_cursorInv (l : Lexer) : CursorInv (readChar l) := by
  refine ⟨rfl, fun h => ?_⟩
  have h' : l.readPosition ≥ l.input.length := h
  show (if l.readPosition ≥ l.input.length then nulChar
        else l.input.getD l.readPosition nulChar) = nulChar
  rw [if_pos h']

theorem lexerNew_cursorInv (inp : List Char) : CursorInv (Lexer.new inp) :=
  readChar_cursorInv _

theorem nextToken_cursorInv (l : Lexer) (h : CursorInv l) :
    CursorInv (NextToken l).2 :=
  nextToken_pres CursorInv (fun l _ => readChar_cursorInv l) l h

/-- On NUL-free input, readChar establishes EofStable from any state. -/
theorem readChar_eofStable (l : Lexer) (hnf : NulFree l) :
    EofStable (readChar l) := by
  intro hch
  show l.readPosition + 1 ≥ l.input.length
  by_cases hrp : l.readPosition ≥ l.input.length
  · omega
  · exfalso
    have hlt : l.readPosition < l.input.length := by omega
    have : (readChar l).ch = l.input.getD l.readPosition nulChar := by
      show (if l.readPosition ≥ l.input.length then nulChar
            else l.input.getD l.readPosition nulChar) = _
      rw [if_neg hrp]
    rw [this] at hch
    rw [List.getD_eq_getElem l.input nulChar hlt] at hch
    exact hnf (hch ▸ List.getElem_mem hlt)

theorem readChar_nulFree (l : Lexer) (hnf : NulFree l) : NulFree (readChar l) := hnf

theorem nextToken_nulFree_eofStable (l : Lexer) (h : NulFree l ∧ EofStable l) :
    NulFree (NextToken l).2 ∧ EofStable (NextToken l).2 :=
  nextToken_pres (fun l => NulFree l ∧ EofStable l)
    (fun l hl => ⟨hl.1, readChar_eofStable l hl.1⟩) l h

theorem lookupIdent_ne (s : List Char) :
    LookupIdent s ≠ .EOF ∧ LookupIdent s ≠ .EQ ∧ LookupIdent s ≠ .NOT_EQ ∧
    LookupIdent s ≠ .ASSIGN ∧ LookupIdent s ≠ .BANG := by
  unfold LookupIdent
  split_ifs <;> exact ⟨by decide, by decide, by decide, by decide, by decide⟩

/-- An EOF token only comes out of the NUL branch of the switch: the
whitespace-skipped state sits on the NUL sentinel and the lexer just takes
one more readChar. -/
theorem nextToken_eof_shape (l : Lexer) (h : (NextToken l).1.type = .EOF) :
    (skipWhitespace l).ch = nulChar ∧
    NextToken l = (⟨.EOF, []⟩, readChar (skipWhitespace l)) := by
  have hb : NextToken l = nextTokenSwitch (skipWhitespace l) := rfl
  rcases nextTokenSwitch_cases (skipWhitespace l) with
      ⟨hc, hp, he⟩ |
      ⟨hc, hp, he⟩ |
      ⟨hc, hp, he⟩ |
      ⟨hc, hp, he⟩ |
      ⟨hc, he⟩ |
      ⟨hc, he⟩ |
      ⟨hc, he⟩ |
      ⟨hc, he⟩ |
      ⟨hc, he⟩ |
      ⟨hc, he⟩ |
      ⟨hc, he⟩ |
      ⟨hc, he⟩ |
      ⟨hc, he⟩ |
      ⟨hc, he⟩ |
      ⟨hc, he⟩ |
      ⟨hc, he⟩ |
      ⟨hc, he⟩ |
      ⟨hc, he⟩ |
      ⟨hc, he⟩ |
      hx
  · rw [hb, he] at h ⊢
    simp [newToken] at h
  · rw [hb, he] at h ⊢
    simp [newToken] at h
  · rw [hb, he] at h ⊢
    simp [newToken] at h
  · rw [hb, he] at h ⊢
    simp [newToken] at h
  · rw [hb, he] at h ⊢
    simp [newToken] at h
  · rw [hb, he] at h ⊢
    simp [newToken] at h
  · rw [hb, he] at h ⊢
    simp [newToken] at h
  · rw [hb, he] at h ⊢
    simp [newToken] at h
  · rw [hb, he] at h ⊢
    simp [newToken] at h
  · rw [hb, he] at h ⊢
    simp [newToken] at h
  · rw [hb, he] at h ⊢
    simp [newToken] at h
  · rw [hb, he] at h ⊢
    simp [newToken] at h
  · rw [hb, he] at h ⊢
    simp [newToken] at h
  · rw [hb, he] at h ⊢
    simp [newToken] at h
  · rw [hb, he] at h ⊢
    simp [newToken] at h
  · rw [hb, he] at h ⊢
    simp [newToken] at h
  · rw [hb, he] at h ⊢
    exact ⟨hc, rfl⟩
  · rw [hb, he] at h ⊢
    exact absurd h (lookupIdent_ne _).1
  · rw [hb, he] at h ⊢
    simp [newToken] at h
  · rw [hb, hx.2.2] at h ⊢
    simp [newToken] at h

/-- From a state past the end of the input, NextToken returns the EOF token
and the successor state is again past the end. -/
theorem nextToken_at_end (l : Lexer) (h : AtEnd l) :
    NextToken l = (⟨.EOF, []⟩, readChar l) ∧ AtEnd (readChar l) := by
  obtain ⟨h1, h2⟩ := h
  have hws : skipWhitespace l = l :=
    skipWhitespace_of_not l (by rw [h1]; exact isWs_nul)
  refine ⟨?_, ?_, ?_⟩
  · rw [NextToken_as_switch, hws]
    simp [nextTokenSwitch, h1, nulChar]
  · show (if l.readPosition ≥ l.input.length then nulChar
          else l.input.getD l.readPosition nulChar) = nulChar
    rw [if_pos h2]
  · show l.readPosition + 1 ≥ l.input.length
    omega

theorem lexSteps_succ_back (k : Nat) (l : Lexer) :
    lexSteps (k + 1) l = (NextToken (lexSteps k l)).2 := by
  induction k generalizing l with
  | zero => rfl
  | succ k ih =>
    show lexSteps (k + 1) (NextToken l).2 = _
    rw [ih]
    rfl

theorem lexSteps_add (a b : Nat) (l : Lexer) :
    lexSteps (a + b) l = lexSteps b (lexSteps a l) := by
  induction a generalizing l with
  | zero => rw [Nat.zero_add]; rfl
  | succ a ih =>
    have h1 : a + 1 + b = (a + b) + 1 := by omega
    rw [h1]
    show lexSteps (a + b) (NextToken l).2 = _
    rw [ih]
    rfl

/-- Once past the end, every later call also returns the EOF token. -/
theorem atEnd_iterate (m : Nat) : ∀ l, AtEnd l →
    (NextToken (lexSteps m l)).1 = ⟨.EOF, []⟩ ∧ AtEnd (lexSteps m l) := by
  induction m with
  | zero =>
    intro l h
    refine ⟨?_, h⟩
    show (NextToken l).1 = _
    rw [(nextToken_at_end l h).1]
  | succ m ih =>
    intro l h
    have h2 := nextToken_at_end l h
    show (NextToken (lexSteps m (NextToken l).2)).1 = _ ∧ AtEnd (lexSteps m (NextToken l).2)
    rw [h2.1]
    exact ih (readChar l) h2.2

/-- C7 (counterexample): the claim quantifies over every input string, but a
Go string may contain a NUL byte, which the lexer treats as its end-of-input
sentinel.  On input "\x00a" the first NextToken call returns the end-of-input
token (kind EOF, empty literal), yet the second call returns the identifier
token "a", not EOF. -/
theorem C7_counterexample :
    (NextToken (Lexer.new [nulChar, 'a'])).1 = ⟨.EOF, []⟩ ∧
    (NextToken (NextToken (Lexer.new [nulChar, 'a'])).2).1 = ⟨.IDENT, ['a']⟩ := by
  constructor
  · decide
  · decide

/-- C7 (amended): for every input string that contains no NUL byte, once
NextToken has returned the end-of-input token, every subsequent call returns
the end-of-input token (kind EOF, empty literal) again, forever. -/
theorem C7_eof_idempotent (inp : List Char) (hnf : nulChar ∉ inp) (n : Nat)
    (h : (tokenAt inp n).type = .EOF) (m : Nat) :
    tokenAt inp (n + m) = ⟨.EOF, []⟩ := by
  have hInv : ∀ k, NulFree (lexSteps k (Lexer.new inp)) ∧
      EofStable (lexSteps k (Lexer.new inp)) := by
    intro k
    induction k with
    | zero => exact ⟨hnf, readChar_eofStable _ hnf⟩
    | succ k ih =>
      rw [lexSteps_succ_back]
      exact nextToken_nulFree_eofStable _ ih
  have hshape := nextToken_eof_shape (lexSteps n (Lexer.new inp)) h
  obtain ⟨hsnul, hNT⟩ := hshape
  have hskipInv : NulFree (skipWhitespace (lexSteps n (Lexer.new inp))) ∧
      EofStable (skipWhitespace (lexSteps n (Lexer.new inp))) :=
    skipWhitespace_pres (fun l => NulFree l ∧ EofStable l)
      (fun l hl => ⟨hl.1, readChar_eofStable l hl.1⟩) _ (hInv n)
  have hrp := hskipInv.2 hsnul
  have hAtEnd : AtEnd (NextToken (lexSteps n (Lexer.new inp))).2 := by
    rw [hNT]
    refine ⟨?_, ?_⟩
    · show (if (skipWhitespace (lexSteps n (Lexer.new inp))).readPosition ≥
              (skipWhitespace (lexSteps n (Lexer.new inp))).input.length then nulChar
            else (skipWhitespace (lexSteps n (Lexer.new inp))).input.getD
              (skipWhitespace (lexSteps n (Lexer.new inp))).readPosition nulChar) = nulChar
      rw [if_pos hrp]
    · show (skipWhitespace (lexSteps n (Lexer.new inp))).readPosition + 1 ≥
          (skipWhitespace (lexSteps n (Lexer.new inp))).input.length
      omega
  cases m with
  | zero =>
    show (NextToken (lexSteps (n + 0) (Lexer.new inp))).1 = _
    rw [Nat.add_zero, hNT]
  | succ m =>
    show (NextToken (lexSteps (n + (m + 1)) (Lexer.new inp))).1 = _
    have hsplit : lexSteps (n + (m + 1)) (Lexer.new inp)
        = lexSteps m (NextToken (lexSteps n (Lexer.new inp))).2 := by
      have : n + (m + 1) = (n + 1) + m := by omega
      rw [this, lexSteps_add (n + 1) m, lexSteps_succ_back]
    rw [hsplit]
    exact (atEnd_iterate m _ hAtEnd).1

/-- Witness for C7's amended theorem at a concrete input: on "a" the second
call returns EOF, and the later calls keep returning the EOF token. -/
theorem C7_witness :
    nulChar ∉ ("a".toList) ∧ (tokenAt ("a".toList) 1).type = .EOF ∧
    tokenAt ("a".toList) (1 + 2) = ⟨.EOF, []⟩ :=
  ⟨by decide, by decide, C7_eof_idempotent ("a".toList) (by decide) 1 (by decide) 2⟩

/-- C8: the lexer emits the EQ kind only when the current character is `=`
and the next is `=`, with literal "==", and the NOT_EQ kind only when the
current character is `!` and the next is `=`, with literal "!="; a `=` or
`!` whose following character is not `=` yields the single-character ASSIGN
or BANG token with the one-character literal. -/
theorem C8_two_char_operators (l : Lexer) :
    ((NextToken l).1.type = .EQ →
      (skipWhitespace l).ch = '=' ∧ peekChar (skipWhitespace l) = '=' ∧
      (NextToken l).1.literal = ['=', '='])
  ∧ ((NextToken l).1.type = .NOT_EQ →
      (skipWhitespace l).ch = '!' ∧ peekChar (skipWhitespace l) = '=' ∧
      (NextToken l).1.literal = ['!', '='])
  ∧ ((skipWhitespace l).ch = '=' → ¬ peekChar (skipWhitespace l) = '=' →
      (NextToken l).1 = ⟨.ASSIGN, ['=']⟩)
  ∧ ((skipWhitespace l).ch = '!' → ¬ peekChar (skipWhitespace l) = '=' →
      (NextToken l).1 = ⟨.BANG, ['!']⟩) := by
  have hb : NextToken l = nextTokenSwitch (skipWhitespace l) := rfl
  rcases nextTokenSwitch_cases (skipWhitespace l) with
      ⟨hc, hp, he⟩ |
      ⟨hc, hp, he⟩ |
      ⟨hc, hp, he⟩ |
      ⟨hc, hp, he⟩ |
      ⟨hc, he⟩ |
      ⟨hc, he⟩ |
      ⟨hc, he⟩ |
      ⟨hc, he⟩ |
      ⟨hc, he⟩ |
      ⟨hc, he⟩ |
      ⟨hc, he⟩ |
      ⟨hc, he⟩ |
      ⟨hc, he⟩ |
      ⟨hc, he⟩ |
      ⟨hc, he⟩ |
      ⟨hc, he⟩ |
      ⟨hc, he⟩ |
      ⟨hc, he⟩ |
      ⟨hc, he⟩ |
      ⟨hne, hnb, he⟩
  · rw [hb, he]
    refine ⟨fun hx => ?_, fun hx => ?_, fun h1 h2 => ?_, fun h1 h2 => ?_⟩
    · exact ⟨hc, hp, by simp [readChar_ch_eq_peekChar, hc, hp]⟩
    · simp at hx
    · exact absurd hp h2
    · rw [hc] at h1
      exact absurd h1 (by decide)
  · rw [hb, he]
    refine ⟨fun hx => ?_, fun hx => ?_, fun h1 h2 => ?_, fun h1 h2 => ?_⟩
    · simp [newToken] at hx
    · simp [newToken] at hx
    · simp [newToken, hc]
    · rw [hc] at h1
      exact absurd h1 (by decide)
  · rw [hb, he]
    refine ⟨fun hx => ?_, fun hx => ?_, fun h1 h2 => ?_, fun h1 h2 => ?_⟩
    · simp at hx
    · exact ⟨hc, hp, by simp [readChar_ch_eq_peekChar, hc, hp]⟩
    · rw [hc] at h1
      exact absurd h1 (by decide)
    · exact absurd hp h2
  · rw [hb, he]
    refine ⟨fun hx => ?_, fun hx => ?_, fun h1 h2 => ?_, fun h1 h2 => ?_⟩
    · simp [newToken] at hx
    · simp [newToken] at hx
    · rw [hc] at h1
      exact absurd h1 (by decide)
    · simp [newToken, hc]
  · rw [hb, he]
    refine ⟨fun hx => ?_, fun hx => ?_, fun h1 h2 => ?_, fun h1 h2 => ?_⟩
    · simp [newToken] at hx
    · simp [newToken] at hx
    · rw [hc] at h1
      exact absurd h1 (by decide)
    · rw [hc] at h1
      exact absurd h1 (by decide)
  · rw [hb, he]
    refine ⟨fun hx => ?_, fun hx => ?_, fun h1 h2 => ?_, fun h1 h2 => ?_⟩
    · simp [newToken] at hx
    · simp [newToken] at hx
    · rw [hc] at h1
      exact absurd h1 (by decide)
    · rw [hc] at h1
      exact absurd h1 (by decide)
  · rw [hb, he]
    refine ⟨fun hx => ?_, fun hx => ?_, fun h1 h2 => ?_, fun h1 h2 => ?_⟩
    · simp [newToken] at hx
    · simp [newToken] at hx
    · rw [hc] at h1
      exact absurd h1 (by decide)
    · rw [hc] at h1
      exact absurd h1 (by decide)
  · rw [hb, he]
    refine ⟨fun hx => ?_, fun hx => ?_, fun h1 h2 => ?_, fun h1 h2 => ?_⟩
    · simp [newToken] at hx
    · simp [newToken] at hx
    · rw [hc] at h1
      exact absurd h1 (by decide)
    · rw [hc] at h1
      exact absurd h1 (by decide)
  · rw [hb, he]
    refine ⟨fun hx => ?_, fun hx => ?_, fun h1 h2 => ?_, fun h1 h2 => ?_⟩
    · simp [newToken] at hx
    · simp [newToken] at hx
    · rw [hc] at h1
      exact absurd h1 (by decide)
    · rw [hc] at h1
      exact absurd h1 (by decide)
  · rw [hb, he]
    refine ⟨fun hx => ?_, fun hx => ?_, fun h1 h2 => ?_, fun h1 h2 => ?_⟩
    · simp [newToken] at hx
    · simp [newToken] at hx
    · rw [hc] at h1
      exact absurd h1 (by decide)
    · rw [hc] at h1
      exact absurd h1 (by decide)
  · rw [hb, he]
    refine ⟨fun hx => ?_, fun hx => ?_, fun h1 h2 => ?_, fun h1 h2 => ?_⟩
    · simp [newToken] at hx
    · simp [newToken] at hx
    · rw [hc] at h1
      exact absurd h1 (by decide)
    · rw [hc] at h1
      exact absurd h1 (by decide)
  · rw [hb, he]
    refine ⟨fun hx => ?_, fun hx => ?_, fun h1 h2 => ?_, fun h1 h2 => ?_⟩
    · simp [newToken] at hx
    · simp [newToken] at hx
    · rw [hc] at h1
      exact absurd h1 (by decide)
    · rw [hc] at h1
      exact absurd h1 (by decide)
  · rw [hb, he]
    refine ⟨fun hx => ?_, fun hx => ?_, fun h1 h2 => ?_, fun h1 h2 => ?_⟩
    · simp [newToken] at hx
    · simp [newToken] at hx
    · rw [hc] at h1
      exact absurd h1 (by decide)
    · rw [hc] at h1
      exact absurd h1 (by decide)
  · rw [hb, he]
    refine ⟨fun hx => ?_, fun hx => ?_, fun h1 h2 => ?_, fun h1 h2 => ?_⟩
    · simp [newToken] at hx
    · simp [newToken] at hx
    · rw [hc] at h1
      exact absurd h1 (by decide)
    · rw [hc] at h1
      exact absurd h1 (by decide)
  · rw [hb, he]
    refine ⟨fun hx => ?_, fun hx => ?_, fun h1 h2 => ?_, fun h1 h2 => ?_⟩
    · simp [newToken] at hx
    · simp [newToken] at hx
    · rw [hc] at h1
      exact absurd h1 (by decide)
    · rw [hc] at h1
      exact absurd h1 (by decide)
  · rw [hb, he]
    refine ⟨fun hx => ?_, fun hx => ?_, fun h1 h2 => ?_, fun h1 h2 => ?_⟩
    · simp [newToken] at hx
    · simp [newToken] at hx
    · rw [hc] at h1
      exact absurd h1 (by decide)
    · rw [hc] at h1
      exact absurd h1 (by decide)
  · rw [hb, he]
    refine ⟨fun hx => ?_, fun hx => ?_, fun h1 h2 => ?_, fun h1 h2 => ?_⟩
    · simp at hx
    · simp at hx
    · rw [hc] at h1
      exact absurd h1 (by decide)
    · rw [hc] at h1
      exact absurd h1 (by decide)
  · rw [hb, he]
    refine ⟨fun hx => ?_, fun hx => ?_, fun h1 h2 => ?_, fun h1 h2 => ?_⟩
    · exact absurd hx (lookupIdent_ne _).2.1
    · exact absurd hx (lookupIdent_ne _).2.2.1
    · rw [h1] at hc
      exact absurd hc (by decide)
    · rw [h1] at hc
      exact absurd hc (by decide)
  · rw [hb, he]
    refine ⟨fun hx => ?_, fun hx => ?_, fun h1 h2 => ?_, fun h1 h2 => ?_⟩
    · simp at hx
    · simp at hx
    · rw [h1] at hc
      exact absurd hc (by decide)
    · rw [h1] at hc
      exact absurd hc (by decide)
  · rw [hb, he]
    refine ⟨fun hx => ?_, fun hx => ?_, fun h1 h2 => ?_, fun h1 h2 => ?_⟩
    · simp [newToken] at hx
    · simp [newToken] at hx
    · exact absurd h1 hne
    · exact absurd h1 hnb

/-- Witness for C8 at concrete inputs: "==" lexes to an EQ token with
literal "==", and "!3" lexes to the single-character BANG token. -/
theorem C8_witness :
    (NextToken (Lexer.new ("==".toList))).1.type = .EQ ∧
    (NextToken (Lexer.new ("==".toList))).1.literal = ['=', '='] ∧
    (NextToken (Lexer.new ("!3".toList))).1 = ⟨.BANG, ['!']⟩ :=
  ⟨by decide,
   ((C8_two_char_operators (Lexer.new ("==".toList))).1 (by decide)).2.2,
   (C8_two_char_operators (Lexer.new ("!3".toList))).2.2.2 (by decide) (by decide)⟩

theorem readChar_pos_mono (c : Nat) (l : Lexer)
    (h : l.readPosition = l.position + 1 ∧ c ≤ l.position) :
    (readChar l).readPosition = (readChar l).position + 1 ∧
    c ≤ (readChar l).position := by
  obtain ⟨h1, h2⟩ := h
  refine ⟨rfl, ?_⟩
  show c ≤ l.readPosition
  omega

theorem nextToken_input (l : Lexer) : (NextToken l).2.input = l.input :=
  nextToken_pres (fun t => t.input = l.input) (fun _ ht => ht) l rfl

/-- Under cursor coherence, every NextToken call strictly advances the
position cursor (each branch performs at least one readChar, and the
identifier/number scans are entered on a matching character). -/
theorem nextToken_advances (l : Lexer) (hc : l.readPosition = l.position + 1) :
    l.position + 1 ≤ (NextToken l).2.position := by
  have hs := skipWhitespace_pres
      (fun t => t.readPosition = t.position + 1 ∧ l.position ≤ t.position)
      (readChar_pos_mono l.position) l ⟨hc, Nat.le_refl _⟩
  obtain ⟨hs1, hs2⟩ := hs
  have hb : NextToken l = nextTokenSwitch (skipWhitespace l) := rfl
  rcases nextTokenSwitch_cases (skipWhitespace l) with
      ⟨hc1, hp1, he⟩ | ⟨hc1, hp1, he⟩ | ⟨hc1, hp1, he⟩ | ⟨hc1, hp1, he⟩ |
      ⟨hc1, he⟩ | ⟨hc1, he⟩ | ⟨hc1, he⟩ | ⟨hc1, he⟩ | ⟨hc1, he⟩ | ⟨hc1, he⟩ |
      ⟨hc1, he⟩ | ⟨hc1, he⟩ | ⟨hc1, he⟩ | ⟨hc1, he⟩ | ⟨hc1, he⟩ | ⟨hc1, he⟩ |
      ⟨hc1, he⟩ | ⟨hc1, he⟩ | ⟨hc1, he⟩ | ⟨hne, hnb, he⟩ <;>
    rw [hb, he] <;>
    first
      | (show l.position + 1 ≤ (skipWhitespace l).readPosition + 1
         omega)
      | (show l.position + 1 ≤ (skipWhitespace l).readPosition
         omega)
      | (show l.position + 1 ≤ (advanceWhile isLetter (skipWhitespace l)).position
         rw [advanceWhile_eq isLetter isLetter_nul, if_pos hc1]
         exact (advanceWhile_pres isLetter
            (fun t => t.readPosition = t.position + 1 ∧ l.position + 1 ≤ t.position)
            (readChar_pos_mono (l.position + 1)) (readChar (skipWhitespace l))
            ⟨rfl, by show l.position + 1 ≤ (skipWhitespace l).readPosition; omega⟩).2)
      | (show l.position + 1 ≤ (advanceWhile isDigit (skipWhitespace l)).position
         rw [advanceWhile_eq isDigit isDigit_nul, if_pos hc1]
         exact (advanceWhile_pres isDigit
            (fun t => t.readPosition = t.position + 1 ∧ l.position + 1 ≤ t.position)
            (readChar_pos_mono (l.position + 1)) (readChar (skipWhitespace l))
            ⟨rfl, by show l.position + 1 ≤ (skipWhitespace l).readPosition; omega⟩).2)

/-- On a coherent lexer state with at most `b` input bytes left, some call
among the next `b + 1` returns the end-of-input token. -/
theorem lexer_reaches_eof (b : Nat) : ∀ l, CursorInv l →
    l.input.length ≤ l.position + b →
    ∃ k, k ≤ b ∧ (NextToken (lexSteps k l)).1.type = .EOF := by
  induction b with
  | zero =>
    intro l hinv hlen
    refine ⟨0, Nat.le_refl 0, ?_⟩
    have hch : l.ch = nulChar := hinv.2 (by omega)
    have hrp : l.readPosition ≥ l.input.length := by rw [hinv.1]; omega
    show (NextToken l).1.type = .EOF
    rw [(nextToken_at_end l ⟨hch, hrp⟩).1]
  | succ b ih =>
    intro l hinv hlen
    by_cases hEOF : (NextToken l).1.type = .EOF
    · exact ⟨0, Nat.zero_le _, hEOF⟩
    · have hadv : l.position + 1 ≤ (NextToken l).2.position :=
        nextToken_advances l hinv.1
      have hinv2 : CursorInv (NextToken l).2 := nextToken_cursorInv l hinv
      have hlen2 : (NextToken l).2.input.length ≤ (NextToken l).2.position + b := by
        rw [nextToken_input]
        omega
      obtain ⟨k, hk, hke⟩ := ih (NextToken l).2 hinv2 hlen2
      exact ⟨k + 1, by omega, hke⟩

/-- C10: every NextToken call on a coherent state that yields a non-EOF
token strictly advances the position cursor, and on any input the lexer
reaches the end-of-input token within input-length + 1 calls (call number
k with k ≤ length, counting from 0). -/
theorem C10_lexer_progress :
    (∀ l : Lexer, l.readPosition = l.position + 1 →
      (NextToken l).1.type ≠ .EOF → l.position < (NextToken l).2.position)
  ∧ (∀ inp : List Char, ∃ k, k ≤ inp.length ∧ (tokenAt inp k).type = .EOF) := by
  constructor
  · intro l h _
    exact nextToken_advances l h
  · intro inp
    have hlen : (Lexer.new inp).input.length ≤ (Lexer.new inp).position + inp.length := by
      show inp.length ≤ 0 + inp.length
      omega
    obtain ⟨k, hk, hke⟩ :=
      lexer_reaches_eof inp.length (Lexer.new inp) (lexerNew_cursorInv inp) hlen
    exact ⟨k, hk, hke⟩

/-- Witness for C10 at a concrete input: on "ab" the first call returns a
non-EOF token and strictly advances the position. -/
theorem C10_witness :
    (Lexer.new ("ab".toList)).readPosition = (Lexer.new ("ab".toList)).position + 1 ∧
    (NextToken (Lexer.new ("ab".toList))).1.type ≠ .EOF ∧
    (Lexer.new ("ab".toList)).position < (NextToken (Lexer.new ("ab".toList))).2.position :=
  ⟨by decide, by decide,
   C10_lexer_progress.1 (Lexer.new ("ab".toList)) (by decide) (by decide)⟩

/- ============== general lemmas about the parser ============== -/

/-- From a stuck state (no `;` in either lookahead slot, lexer past end of
input), advancing the parser stays stuck: the lexer only produces EOF
tokens from now on. -/
theorem stuck_nextToken (p : Parser) (h : StuckNoSemicolon p) :
    StuckNoSemicolon (nextToken p) := by
  obtain ⟨h1, h2, h3, h4⟩ := h
  have hnt := nextToken_at_end p.l ⟨h3, h4⟩
  refine ⟨h2, ?_, ?_, ?_⟩
  · show (NextToken p.l).1.type ≠ .SEMICOLON
    rw [hnt.1]
    simp
  · show (NextToken p.l).2.ch = nulChar
    rw [hnt.1]
    exact hnt.2.1
  · show (NextToken p.l).2.readPosition ≥ (NextToken p.l).2.input.length
    rw [hnt.1]
    exact hnt.2.2

/-- The skip-to-semicolon loop of parseLetStatement/parseReturnStatement
exhausts any amount of fuel from a stuck state: it never finds its `;`. -/
theorem skipToSemicolon_stuck (fuel : Nat) : ∀ p, StuckNoSemicolon p →
    skipToSemicolon fuel p = none := by
  induction fuel with
  | zero => intro p _; rfl
  | succ fuel ih =>
    intro p h
    show (if ¬ curTokenIs p .SEMICOLON = true then skipToSemicolon fuel (nextToken p)
          else some p) = none
    rw [if_pos ?_]
    · exact ih (nextToken p) (stuck_nextToken p h)
    · show ¬ curTokenIs p .SEMICOLON = true
      simp only [curTokenIs, decide_eq_true_eq]
      exact h.1

theorem parseLetStatement_none (fuel : Nat) (p p1 p2 : Parser)
    (h1 : expectPeek p .IDENT = (true, p1))
    (h2 : expectPeek p1 .ASSIGN = (true, p2))
    (h3 : skipToSemicolon fuel p2 = none) :
    parseLetStatement fuel p = none := by
  simp only [parseLetStatement, h1, h2, h3]

theorem parseReturnStatement_none (fuel : Nat) (p : Parser)
    (h : skipToSemicolon fuel (nextToken p) = none) :
    parseReturnStatement fuel p = none := by
  simp only [parseReturnStatement, h]

theorem parseStatement_let_none (fuel : Nat) (p : Parser)
    (h : p.curToken.type = .LET) (h2 : parseLetStatement fuel p = none) :
    parseStatement fuel p = none := by
  simp only [parseStatement, h, h2]

theorem parseStatement_return_none (fuel : Nat) (p : Parser)
    (h : p.curToken.type = .RETURN) (h2 : parseReturnStatement fuel p = none) :
    parseStatement fuel p = none := by
  unfold parseStatement
  rw [h]
  exact h2

theorem parseProgramLoop_stmt_none (fuel : Nat) (p : Parser) (acc : List Stmt)
    (h1 : ¬ curTokenIs p .EOF = true) (h2 : parseStatement fuel p = none) :
    parseProgramLoop (fuel + 1) p acc = none := by
  show (if ¬ curTokenIs p .EOF = true then _ else _) = none
  rw [if_pos h1, h2]

/-- C1 (code behavior at the failing inputs): when the final let or return
statement lacks its trailing `;` at end of input, the skip loop in
parseLetStatement/parseReturnStatement never exits, so ParseProgram never
returns: the fueled run fails for every fuel.  (The spec's optional
trailing semicolon is real only for expression statements.) -/
theorem C1_skip_loop_diverges (fuel : Nat) :
    parseInput fuel ("let x = 5".toList) = none ∧
    parseInput fuel ("return 5".toList) = none := by
  constructor
  · cases fuel with
    | zero => rfl
    | succ f =>
      have h1 : expectPeek (Parser.new (Lexer.new ("let x = 5".toList))) .IDENT
          = (true, nextToken (Parser.new (Lexer.new ("let x = 5".toList)))) := by decide
      have h2 : expectPeek (nextToken (Parser.new (Lexer.new ("let x = 5".toList)))) .ASSIGN
          = (true, nextToken (nextToken (Parser.new (Lexer.new ("let x = 5".toList))))) := by
        decide
      have h3 : skipToSemicolon f
          (nextToken (nextToken (Parser.new (Lexer.new ("let x = 5".toList))))) = none :=
        skipToSemicolon_stuck f _ (by decide)
      have h4 : parseLetStatement f (Parser.new (Lexer.new ("let x = 5".toList))) = none :=
        parseLetStatement_none f _ _ _ h1 h2 h3
      have h5 : parseStatement f (Parser.new (Lexer.new ("let x = 5".toList))) = none :=
        parseStatement_let_none f _ (by decide) h4
      exact parseProgramLoop_stmt_none f _ [] (by decide) h5
  · cases fuel with
    | zero => rfl
    | succ f =>
      have h3 : skipToSemicolon f
          (nextToken (Parser.new (Lexer.new ("return 5".toList)))) = none :=
        skipToSemicolon_stuck f _ (by decide)
      have h4 : parseReturnStatement f (Parser.new (Lexer.new ("return 5".toList))) = none :=
        parseReturnStatement_none f _ h3
      have h5 : parseStatement f (Parser.new (Lexer.new ("return 5".toList))) = none :=
        parseStatement_return_none f _ (by decide) h4
      exact parseProgramLoop_stmt_none f _ [] (by decide) h5

/-- C2 (counterexample): parsing "let x = 5;" completes, but the resulting
program contains no let binding of x to an IntegerLiteral 5: the single
LetStatement's Value field is left nil, because parseLetStatement skips the
tokens after `=` up to the `;` instead of parsing the expression. -/
theorem C2_counterexample :
    parsedStatements 50 ("let x = 5;".toList) ≠ none ∧
    ((parsedStatements 50 ("let x = 5;".toList)).getD []).all
      (fun s => ! specLetBindsInt ("x".toList) 5 s) = true := by
  exact ⟨by decide, by decide⟩

/-- C2 (amended): parsing "let x = 5;" yields a Program containing exactly
one statement, a LetStatement whose bound identifier name is "x" and whose
value expression is left absent (nil) — the expression is skipped, not
parsed — with no recorded errors. -/
theorem C2_let_value_skipped :
    parsedStatements 50 ("let x = 5;".toList) =
      some [.LetStatement ⟨.LET, "let".toList⟩
        ⟨⟨.IDENT, "x".toList⟩, "x".toList⟩ .nilExpr] ∧
    parsedErrors 50 ("let x = 5;".toList) = some [] := by
  exact ⟨by decide, by decide⟩

/-- C4: parsing "1 + 2 * 3" yields an infix tree with root operator "+"
whose right child is the infix "*" node over 2 and 3, and in the
precedence table PLUS maps to SUM, ASTERISK to PRODUCT, with SUM < PRODUCT. -/
theorem C4_mul_binds_tighter :
    parsedStatements 50 ("1 + 2 * 3".toList) =
      some [.ExpressionStatement ⟨.INT, "1".toList⟩
        (.InfixExpression ⟨.PLUS, "+".toList⟩ ("+".toList)
          (.IntegerLiteral ⟨.INT, "1".toList⟩ 1)
          (.InfixExpression ⟨.ASTERISK, "*".toList⟩ ("*".toList)
            (.IntegerLiteral ⟨.INT, "2".toList⟩ 2)
            (.IntegerLiteral ⟨.INT, "3".toList⟩ 3)))] ∧
    parsedErrors 50 ("1 + 2 * 3".toList) = some [] ∧
    precedences .PLUS = some SUM ∧ precedences .ASTERISK = some PRODUCT ∧
    SUM < PRODUCT := by
  exact ⟨by decide, by decide, rfl, rfl, by decide⟩

/-- C5: parsing "a - b - c" yields the left-associated tree (a - b) - c:
the root is an infix "-" whose left child is the infix "-" over a and b and
whose right child is the identifier c. -/
theorem C5_minus_left_assoc :
    parsedStatements 50 ("a - b - c".toList) =
      some [.ExpressionStatement ⟨.IDENT, "a".toList⟩
        (.InfixExpression ⟨.MINUS, "-".toList⟩ ("-".toList)
          (.InfixExpression ⟨.MINUS, "-".toList⟩ ("-".toList)
            (.IdentifierE ⟨.IDENT, "a".toList⟩ ("a".toList))
            (.IdentifierE ⟨.IDENT, "b".toList⟩ ("b".toList)))
          (.IdentifierE ⟨.IDENT, "c".toList⟩ ("c".toList)))] ∧
    parsedErrors 50 ("a - b - c".toList) = some [] := by
  exact ⟨by decide, by decide⟩

/-- C6: parsing "let x 5;" (missing `=`) records exactly one diagnostic,
the expected-vs-actual peek-mismatch "expected next token to be =, got INT
instead"; the resulting program contains no valid let binding for x (the
failed parse contributes only the typed-nil LetStatement entry, whose Name
was never assigned), and parsing continues past the error rather than
aborting: the `5` is still parsed as an expression statement. -/
theorem C6_missing_assign_recovers :
    parsedErrors 50 ("let x 5;".toList) =
      some ["expected next token to be =, got INT instead".toList] ∧
    parsedStatements 50 ("let x 5;".toList) =
      some [.nilLetStatement,
        .ExpressionStatement ⟨.INT, "5".toList⟩
          (.IntegerLiteral ⟨.INT, "5".toList⟩ 5)] ∧
    ((parsedStatements 50 ("let x 5;".toList)).getD []).all
      (fun s => ! isLetBindingOf ("x".toList) s) = true := by
  exact ⟨by decide, by decide, by decide⟩

theorem digitVal_lt_ten (d : Char) (h : isDigit d = true) : digitVal d < 10 := by
  simp only [isDigit, Bool.and_eq_true, decide_eq_true_eq] at h
  obtain ⟨h1, h2⟩ := h
  have g1 : 48 ≤ d.toNat := h1
  have g2 : d.toNat ≤ 57 := h2
  have g3 : digitVal d = d.toNat - 48 := rfl
  omega

/-- Base detection in ParseInt(s, 0, 64): a leading '0' switches the rest
of the digits to octal. -/
theorem goParseIntBase0_leading_zero (rest : List Char) :
    goParseIntBase0 ('0' :: rest) =
      if rest.all (fun d => digitVal d < 8) then
        (if octalValue rest ≤ maxInt64 then some (Int.ofNat (octalValue rest)) else none)
      else none := rfl

/-- Base detection in ParseInt(s, 0, 64): without a leading '0' the digits
are decimal. -/
theorem goParseIntBase0_no_zero (c : Char) (rest : List Char) (hc : ¬ c = '0') :
    goParseIntBase0 (c :: rest) =
      if (c :: rest).all (fun d => digitVal d < 10) then
        (if decimalValue (c :: rest) ≤ maxInt64
         then some (Int.ofNat (decimalValue (c :: rest))) else none)
      else none := by
  simp only [goParseIntBase0, if_neg hc]
  rfl

theorem all_digits_lt_ten (s : List Char) (hdig : s.all isDigit = true) :
    s.all (fun d => decide (digitVal d < 10)) = true := by
  rw [List.all_eq_true] at hdig ⊢
  intro x hx
  exact decide_eq_true (digitVal_lt_ten x (hdig x hx))

/-- C3 (amended): for every INT token literal the lexer can produce (a
nonempty run of decimal digits), the parser's value is the ParseInt(lit, 0,
64) interpretation: exact decimal only when the literal has no leading
zero; a leading zero switches the remaining digits to octal; a conversion
failure (a digit invalid for the detected base, or a value beyond the
positive int64 range) appends "could not parse %q as integer" to the error
list and produces no node (a nil expression). -/
theorem C3_int_literal_base0 (s : List Char) (p : Parser)
    (hne : s ≠ []) (hdig : s.all isDigit = true) (hlit : p.curToken.literal = s) :
    (s.head? ≠ some '0' →
      (decimalValue s ≤ maxInt64 →
        parseIntegerLiteral p = (.IntegerLiteral p.curToken (Int.ofNat (decimalValue s)), p)) ∧
      (decimalValue s > maxInt64 →
        parseIntegerLiteral p = (.nilExpr, { p with errors := p.errors ++
          ["could not parse \"".toList ++ s ++ "\" as integer".toList] })))
  ∧ (∀ rest, s = '0' :: rest →
      (rest.all (fun d => digitVal d < 8) = true → octalValue rest ≤ maxInt64 →
        parseIntegerLiteral p = (.IntegerLiteral p.curToken (Int.ofNat (octalValue rest)), p)) ∧
      (¬ (rest.all (fun d => digitVal d < 8) = true ∧ octalValue rest ≤ maxInt64) →
        parseIntegerLiteral p = (.nilExpr, { p with errors := p.errors ++
          ["could not parse \"".toList ++ s ++ "\" as integer".toList] }))) := by
  constructor
  · intro hhead
    cases s with
    | nil => exact absurd rfl hne
    | cons c rest =>
      have hc : ¬ c = '0' := by
        intro hcc
        rw [hcc] at hhead
        exact hhead rfl
      have hgo := goParseIntBase0_no_zero c rest hc
      rw [all_digits_lt_ten (c :: rest) hdig, if_pos rfl] at hgo
      constructor
      · intro hle
        unfold parseIntegerLiteral
        rw [hlit, hgo, if_pos hle]
      · intro hgt
        unfold parseIntegerLiteral
        rw [hlit, hgo, if_neg (by omega)]
  · intro rest hrest
    subst hrest
    have hgo := goParseIntBase0_leading_zero rest
    constructor
    · intro hall hle
      unfold parseIntegerLiteral
      rw [hlit, hgo, hall, if_pos rfl, if_pos hle]
    · intro hnand
      unfold parseIntegerLiteral
      by_cases hall : rest.all (fun d => digitVal d < 8) = true
      · have hgt : ¬ octalValue rest ≤ maxInt64 := fun hle => hnand ⟨hall, hle⟩
        rw [hlit, hgo, hall, if_pos rfl, if_neg hgt]
      · rw [hlit, hgo, if_neg ?_]
        intro hx
        exact hall hx

/-- Witness for C3's amended theorem at concrete literals: "12" parses to
the decimal value 12, and through the full pipeline "010" parses to 8. -/
theorem C3_witness :
    ("12".toList ≠ ([] : List Char)) ∧
    ("12".toList).all isDigit = true ∧
    (Parser.new (Lexer.new ("12".toList))).curToken.literal = "12".toList ∧
    decimalValue ("12".toList) ≤ maxInt64 ∧
    parseIntegerLiteral (Parser.new (Lexer.new ("12".toList))) =
      (.IntegerLiteral (Parser.new (Lexer.new ("12".toList))).curToken
        (Int.ofNat (decimalValue ("12".toList))),
       Parser.new (Lexer.new ("12".toList))) :=
  ⟨by decide, by decide, by decide, by decide,
   ((C3_int_literal_base0 ("12".toList) (Parser.new (Lexer.new ("12".toList)))
      (by decide) (by decide) (by decide)).1 (by decide)).1 (by decide)⟩

/-- C3 (counterexample): the lexer produces the INT token "010" from input
"010"; the parser's IntegerLiteral node carries the value 8 (octal), not
the exact decimal interpretation 10 of the literal text. -/
theorem C3_counterexample :
    parsedStatements 50 ("010".toList) =
      some [.ExpressionStatement ⟨.INT, "010".toList⟩
        (.IntegerLiteral ⟨.INT, "010".toList⟩ 8)] ∧
    decimalValue ("010".toList) = 10 ∧ (8 : Int) ≠ 10 := by
  exact ⟨by decide, by decide, by decide⟩

/-- When no prefix parse function is registered for the current token type,
parseExpression records the no-prefix-parse-function error and returns a
nil expression immediately. -/
theorem parseExpression_noPreFn (fuel precedence : Nat) (p : Parser)
    (h : registeredPre p.curToken.type = false) :
    parseExpression (fuel + 1) precedence p
      = some (.nilExpr, noPreFnError p p.curToken.type) := by
  cases ht : p.curToken.type <;> simp_all [parseExpression, registeredPre]

theorem parseExpressionStatement_noPreFn (fuel : Nat) (p : Parser)
    (h : registeredPre p.curToken.type = false) :
    (parseExpressionStatement (fuel + 1) p).map (fun r => r.1)
      = some (some (.ExpressionStatement p.curToken .nilExpr)) ∧
    (parseExpressionStatement (fuel + 1) p).map (fun r => r.2.errors)
      = some (p.errors ++ ["no prefix parse function for ".toList ++
          p.curToken.type.toChars ++ " found".toList]) := by
  unfold parseExpressionStatement
  rw [parseExpression_noPreFn fuel LOWEST p h]
  constructor
  · rfl
  · show (Option.map (fun r => r.2.errors)
        (some (some (Stmt.ExpressionStatement p.curToken Expr.nilExpr),
          if peekTokenIs (noPreFnError p p.curToken.type) .SEMICOLON = true
          then nextToken (noPreFnError p p.curToken.type)
          else noPreFnError p p.curToken.type))) = _
    split
    · rfl
    · rfl

theorem parseStatement_noPreFn (fuel : Nat) (p : Parser)
    (h2 : p.curToken.type ≠ .LET) (h3 : p.curToken.type ≠ .RETURN) :
    parseStatement (fuel + 1) p = parseExpressionStatement (fuel + 1) p := by
  unfold parseStatement
  cases ht : p.curToken.type <;>
    first
      | rfl
      | exact absurd ht h2
      | exact absurd ht h3

/-- C9 (counterexample): broken let statements are NOT omitted from the
statement list.  Parsing "let 5;" yields two statement entries: the failed
let parse contributes a typed-nil *ast.LetStatement interface value (Go's
pointer-to-interface conversion makes it non-nil, so ParseProgram's
`stmt != nil` guard appends it), followed by the expression statement for
the `5`. -/
theorem C9_counterexample :
    parsedStatements 50 ("let 5;".toList)
      = some [.nilLetStatement,
          .ExpressionStatement ⟨.INT, "5".toList⟩
            (.IntegerLiteral ⟨.INT, "5".toList⟩ 5)] ∧
    ((parsedStatements 50 ("let 5;".toList)).getD []).length = 2 := by
  exact ⟨by decide, by decide⟩

/-- C9 (amended): a statement beginning with a token kind that has no
registered prefix parse function records a no-prefix-parse-function error
but still produces an ExpressionStatement whose Expression field is nil;
such broken expression statements are counted in the statement sequence
(the full parse of ";" keeps one), and broken let statements are likewise
counted, as typed-nil *ast.LetStatement interface entries, rather than
being omitted ("let 5;" keeps both the typed-nil entry and the `5`). -/
theorem C9_broken_statements_kept :
    (∀ (fuel : Nat) (p : Parser), registeredPre p.curToken.type = false →
      p.curToken.type ≠ .LET → p.curToken.type ≠ .RETURN →
      (parseStatement (fuel + 1) p).map (fun r => r.1)
        = some (some (.ExpressionStatement p.curToken .nilExpr)) ∧
      (parseStatement (fuel + 1) p).map (fun r => r.2.errors)
        = some (p.errors ++ ["no prefix parse function for ".toList ++
            p.curToken.type.toChars ++ " found".toList]))
  ∧ parsedStatements 50 (";".toList)
      = some [.ExpressionStatement ⟨.SEMICOLON, ";".toList⟩ .nilExpr]
  ∧ parsedErrors 50 (";".toList)
      = some ["no prefix parse function for ; found".toList]
  ∧ parsedStatements 50 ("let 5;".toList)
      = some [.nilLetStatement,
          .ExpressionStatement ⟨.INT, "5".toList⟩
            (.IntegerLiteral ⟨.INT, "5".toList⟩ 5)] := by
  refine ⟨?_, by decide, by decide, by decide⟩
  intro fuel p h h2 h3
  rw [parseStatement_noPreFn fuel p h2 h3]
  exact parseExpressionStatement_noPreFn fuel p h

/-- Witness for C9's universally quantified part at the parser state for
input ";" (current token kind SEMICOLON, which has no prefix function). -/
theorem C9_witness :
    registeredPre (Parser.new (Lexer.new (";".toList))).curToken.type = false ∧
    (parseStatement 6 (Parser.new (Lexer.new (";".toList)))).map (fun r => r.1)
      = some (some (.ExpressionStatement
          (Parser.new (Lexer.new (";".toList))).curToken .nilExpr)) :=
  ⟨by decide,
   (C9_broken_statements_kept.1 5 (Parser.new (Lexer.new (";".toList)))
     (by decide) (by decide) (by decide)).1⟩
